import Mathlib

/-!
# Verification of the git-global repository-discovery / cache / parallel core

Shallow embedding of `src/config.rs`, `src/repo.rs` and `src/parallel.rs` of
the `git-global` repository.  Filesystem state is made explicit as a value of
type `FS`; a `Repo` is represented by its path `String` (the Rust `Repo` is a
newtype over `PathBuf`, and `Repo::new(p).path() = p` for UTF-8 paths).
Machine concurrency in `parallel.rs` is embedded as a small-step transition
relation over scheduler states.
-/

namespace GitGlobal

/-- Models Rust `str::starts_with` (character-sequence prefix test). -/
def strStartsWith (s pre : String) : Bool :=
  decide (pre.data <+: s.data)

/-- Models Rust `str::contains` (substring containment). -/
def strContains (s pat : String) : Bool :=
  decide (pat.data <:+: s.data)

/-- Models `Path::parent().to_str()`: the path with its final `/`-separated
component removed (and without the trailing separator). -/
def parentOfStr (s : String) : String :=
  ⟨(s.data.reverse.dropWhile (· ≠ '/')).drop 1 |>.reverse⟩

/-- The configuration record, from `struct Config` in `src/config.rs`.
Paths are strings; the three `Option<PathBuf>` fields are `Option String`. -/
structure Config where
  basedir : String
  follow_symlinks : Bool
  same_filesystem : Bool
  ignored_patterns : List String
  default_cmd : String
  verbose : Bool
  show_untracked : Bool
  cache_file : Option String
  manpage_file : Option String
  ignored_repos_file : Option String
deriving DecidableEq, Repr

/-- A directory tree node, modelling the filesystem subtree walked by
`WalkDir::new(&self.basedir)`: entry name, whether the entry is a directory,
and child entries. -/
inductive FTree : Type where
  | node (name : String) (isDir : Bool) (children : List FTree)
deriving Repr

/-- The name of a tree node. -/
def FTree.name : FTree → String
  | .node n _ _ => n

/-- Explicit filesystem state threaded through the embedded operations. -/
structure FS where
  /-- Text files present on disk, as (path, lines); the first binding for a
  path shadows later ones, so `File::create` overwrites by consing. -/
  files : List (String × List String)
  /-- Directory paths that exist on disk (`Path::exists` for repo paths). -/
  dirs : List String
  /-- Result of `Path::canonicalize`: paths absent from the map fail to
  canonicalize (e.g. they no longer exist). -/
  canon : List (String × String)
  /-- Paths `p` for which `git2::Repository::open(p).is_ok()` (the opaque
  VCS capability). -/
  vcsOk : List String
  /-- The directory tree rooted at the configured base directory; the root
  node's `name` is the full base-directory path. -/
  tree : FTree

/-- Association-list lookup used for `FS.files` and `FS.canon`. -/
def assocLookup {β : Type} : List (String × β) → String → Option β
  | [], _ => none
  | (k, v) :: rest, p => if k = p then some v else assocLookup rest p

/-- The lines of the file at `p`, if it exists. -/
def FS.fileLines (fs : FS) (p : String) : Option (List String) :=
  assocLookup fs.files p

/-- Models `Path::exists` for a file path (`cache_file.exists()` etc.). -/
def FS.fileExists (fs : FS) (p : String) : Bool :=
  (fs.fileLines p).isSome

/-- Models `Path::exists` for a cached repo path (a file or a directory). -/
def FS.pathExists (fs : FS) (p : String) : Bool :=
  (fs.fileLines p).isSome || fs.dirs.contains p

/-- Models `Path::canonicalize().ok().and_then(|p| p.to_str())`. -/
def FS.canonOf (fs : FS) (p : String) : Option String :=
  assocLookup fs.canon p

/-- Overwrite (or create) the file at `p` with the given lines
(`File::create` followed by `writeln!` per line). -/
def FS.setFile (fs : FS) (p : String) (lines : List String) : FS :=
  { fs with files := (p, lines) :: fs.files }

/-- Models `create_dir_all(parent)` for the parent of file `p`. -/
def FS.mkParentDir (fs : FS) (p : String) : FS :=
  { fs with dirs := parentOfStr p :: fs.dirs }

/-- The ignored-repository match shared by `Config::filter`
(src/config.rs:217-225) and `Config::get_cached_repos`
(src/config.rs:336-345): the entry path, or its canonical form when
canonicalization succeeded, equals an ignored entry or starts with the
ignored entry followed by `/`. -/
def isIgnoredEntry (entryPath : String) (canonicalPath : Option String)
    (ignored : List String) : Bool :=
  ignored.any fun ignoredPath =>
    entryPath == ignoredPath
      || strStartsWith entryPath (ignoredPath ++ "/")
      || canonicalPath.any fun cp =>
          cp == ignoredPath || strStartsWith cp (ignoredPath ++ "/")

/-- A yielded directory entry of the walk (`walkdir::DirEntry`): full path,
file name (final component), and whether it is a directory. -/
structure Entry where
  path : String
  name : String
  isDir : Bool
deriving DecidableEq, Repr

/-- `Config::filter` (src/config.rs:193-228): `true` iff the entry should be
included in the scan.  (The invalid-UTF-8 early return is not representable:
every Lean string is valid UTF-8.) -/
def Config.filterEntry (cfg : Config) (fs : FS) (ignoredRepos : List String)
    (e : Entry) : Bool :=
  let matchesPattern := cfg.ignored_patterns.any fun pattern =>
    !pattern.isEmpty && strContains e.path pattern
  if matchesPattern then false
  else
    let canonicalPath := fs.canonOf e.path
    !(isIgnoredEntry e.path canonicalPath ignoredRepos)

/-- `Config::get_ignored_repos` (src/config.rs:356-368): the lines of the
ignored-repos file, or `[]` when no file is configured or it does not exist. -/
def Config.get_ignored_repos (cfg : Config) (fs : FS) : List String :=
  match cfg.ignored_repos_file with
  | none => []
  | some file =>
      match fs.fileLines file with
      | none => []
      | some lines => lines

/-- `Config::has_cache` (src/config.rs:290-292): the cache file is configured
and exists. -/
def Config.has_cache (cfg : Config) (fs : FS) : Bool :=
  match cfg.cache_file with
  | none => false
  | some file => fs.fileExists file

/-- `Config::cache_repos` (src/config.rs:295-312): create the cache
directory if the file does not exist, then overwrite the cache file with one
line per repo path, in the order given. -/
def Config.cache_repos (cfg : Config) (fs : FS) (repos : List String) : FS :=
  match cfg.cache_file with
  | none => fs
  | some file =>
      let fs1 := if !fs.fileExists file then fs.mkParentDir file else fs
      fs1.setFile file repos

/-- The per-line keep test of `Config::get_cached_repos`
(src/config.rs:323-349): the path still exists and does not match any
ignored entry (checked on the literal and the canonical form). -/
def keepCachedLine (fs : FS) (ignored : List String) (repoPath : String) :
    Bool :=
  fs.pathExists repoPath
    && !(isIgnoredEntry repoPath (fs.canonOf repoPath) ignored)

/-- `Config::get_cached_repos` (src/config.rs:315-353): read every line of
the cache file (there is no fingerprint line to skip), keeping, in order,
the lines whose path exists and is not ignored. -/
def Config.get_cached_repos (cfg : Config) (fs : FS) : List String :=
  let ignored := cfg.get_ignored_repos fs
  match cfg.cache_file with
  | none => []
  | some file =>
      match fs.fileLines file with
      | none => []
      | some lines => lines.filter (keepCachedLine fs ignored)

mutual

/-- The walk of `WalkDir` with
`filter_entry(|e| self.filter(e, &ignored_repos))`
(src/config.rs:239-246): yield the entry, then its subtree depth-first;
an entry failing the filter is pruned together with its whole subtree. -/
def walkNode (flt : Entry → Bool) (path : String) : FTree → List Entry
  | .node name isDir children =>
    if flt ⟨path, name, isDir⟩ then
      ⟨path, name, isDir⟩ :: walkForest flt path children
    else []

/-- Walk the children of the directory at `parent`, in order. -/
def walkForest (flt : Entry → Bool) (parent : String) :
    List FTree → List Entry
  | [] => []
  | c :: cs =>
      walkNode flt (parent ++ "/" ++ c.name) c ++ walkForest flt parent cs

end

/-- `Config::find_repos` (src/config.rs:231-287): walk the base directory;
every yielded directory entry named `.git` whose parent opens as a valid git
repository contributes that parent; the result is sorted by path.  (The
progress printing is cosmetic I/O with no effect on the result.) -/
def Config.find_repos (cfg : Config) (fs : FS) : List String :=
  let ignoredRepos := cfg.get_ignored_repos fs
  let entries := walkNode (cfg.filterEntry fs ignoredRepos) cfg.basedir fs.tree
  let repos := entries.filterMap fun e =>
    if e.isDir && e.name == ".git"
        && fs.vcsOk.contains (parentOfStr e.path) then
      some (parentOfStr e.path)
    else none
  repos.insertionSort (· ≤ ·)

/-- `Config::get_repos` (src/config.rs:174-180): populate the cache first if
it is absent, then answer from the cache.  Returns the repo list together
with the resulting filesystem state. -/
def Config.get_repos (cfg : Config) (fs : FS) : List String × FS :=
  let fs' := if !cfg.has_cache fs then
      cfg.cache_repos fs (cfg.find_repos fs)
    else fs
  (cfg.get_cached_repos fs', fs')

/-- `Config::ignore_repo` (src/config.rs:372-406): canonicalize, reject when
already ignored, otherwise append one line to the ignored-repos file,
creating its parent directory when the file does not exist.  Returns the
result together with the resulting filesystem state.  (The invalid-UTF-8
rejection is not representable: every Lean string is valid UTF-8.) -/
def Config.ignore_repo (cfg : Config) (fs : FS) (repoPath : String) :
    Except String Unit × FS :=
  match fs.canonOf repoPath with
  | none => (.error ("Invalid path " ++ repoPath), fs)
  | some canonical =>
      let ignored := cfg.get_ignored_repos fs
      if canonical ∈ ignored then
        (.error (canonical ++ " is already ignored"), fs)
      else
        match cfg.ignored_repos_file with
        | none => (.error "No ignored repos file configured", fs)
        | some file =>
            let fs1 := if !fs.fileExists file then fs.mkParentDir file else fs
            let oldLines := (fs1.fileLines file).getD []
            (.ok (), fs1.setFile file (oldLines ++ [canonical]))

/-! ## Concrete fixtures -/

/-- A concrete configuration with both auxiliary files configured. -/
def cfgA : Config :=
  { basedir := "/home/u", follow_symlinks := true, same_filesystem := true,
    ignored_patterns := [], default_cmd := "status", verbose := false,
    show_untracked := true, cache_file := some "/cache/repos.txt",
    manpage_file := none, ignored_repos_file := some "/cache/ignored.txt" }

/-- `cfgA` with one field (`verbose`) changed. -/
def cfgB : Config := { cfgA with verbose := true }

/-- An empty filesystem whose base-directory tree has no children. -/
def fs0 : FS :=
  { files := [], dirs := [], canon := [], vcsOk := [],
    tree := .node "u" true [] }

/-- `fs0` with the directory `/home/u/a` present on disk. -/
def fsEx : FS := { fs0 with dirs := ["/home/u/a"] }

/-- `fs0` with a one-entry cache file already present and the listed
directory existing on disk. -/
def fsC : FS :=
  { fs0 with
    files := [("/cache/repos.txt", ["/home/u/a"])],
    dirs := ["/home/u/a"] }

/-- A base-directory tree with one git repository (`/home/u/proj`) and one
plain directory (`/home/u/x`). -/
def treeT : FTree :=
  .node "u" true [.node "proj" true [.node ".git" true []],
    .node "x" true []]

/-- `fs0` with the tree `treeT`, whose repository is validated by the VCS
capability. -/
def fsT : FS := { fs0 with tree := treeT, vcsOk := ["/home/u/proj"] }

/-- `fs0` where `/home/u/b` canonicalizes to itself. -/
def fsI : FS := { fs0 with canon := [("/home/u/b", "/home/u/b")] }

/-! ## Helper lemmas -/

theorem fileLines_setFile_self (fs : FS) (p : String) (lines : List String) :
    (fs.setFile p lines).fileLines p = some lines := by
  simp [FS.setFile, FS.fileLines, assocLookup]

theorem fileLines_mkParentDir (fs : FS) (p q : String) :
    (fs.mkParentDir p).fileLines q = fs.fileLines q := rfl

theorem fileLines_cache_repos (cfg : Config) (fs : FS)
    (repos : List String) (file : String) (hc : cfg.cache_file = some file) :
    (cfg.cache_repos fs repos).fileLines file = some repos := by
  simp only [Config.cache_repos, hc]
  split <;>
    simp [FS.setFile, FS.fileLines, FS.mkParentDir, assocLookup]

theorem get_ignored_repos_eq_getD (cfg : Config) (fs : FS) (file : String)
    (hf : cfg.ignored_repos_file = some file) :
    cfg.get_ignored_repos fs = (fs.fileLines file).getD [] := by
  simp only [Config.get_ignored_repos, hf]
  rcases h : fs.fileLines file with _ | lines <;> simp [h]

/-! ## Theorems -/

/-- C5: a path is excluded by the ignored-repository match iff the path
(in its literal form, or in its canonicalized form when canonicalization
succeeds) equals an ignored entry or begins with an ignored entry followed
by the path separator; when `/home/u/proj` is ignored, `/home/u/proj`,
`/home/u/proj/sub` and a symlink canonicalizing into `/home/u/proj/sub` are
excluded while `/home/u/project2` is not; a path whose canonicalization
fails is matched only against its literal form. -/
theorem C5_ignored_match :
    (∀ (p : String) (c : Option String) (igs : List String),
        isIgnoredEntry p c igs = true ↔
          ∃ ig ∈ igs,
            (p = ig ∨ (ig ++ "/").data <+: p.data) ∨
              ∃ cp, c = some cp ∧ (cp = ig ∨ (ig ++ "/").data <+: cp.data))
    ∧ (∀ (p : String) (igs : List String),
        isIgnoredEntry p none igs = true ↔
          ∃ ig ∈ igs, p = ig ∨ (ig ++ "/").data <+: p.data)
    ∧ isIgnoredEntry "/home/u/proj" none ["/home/u/proj"] = true
    ∧ isIgnoredEntry "/home/u/proj/sub" none ["/home/u/proj"] = true
    ∧ isIgnoredEntry "/other/link" (some "/home/u/proj/sub")
        ["/home/u/proj"] = true
    ∧ isIgnoredEntry "/home/u/project2" (some "/home/u/project2")
        ["/home/u/proj"] = false := by
  refine ⟨?_, ?_, by decide, by decide, by decide, by decide⟩
  · intro p c igs
    cases c <;>
      simp [isIgnoredEntry, List.any_eq_true, strStartsWith]
  · intro p igs
    simp [isIgnoredEntry, List.any_eq_true, strStartsWith]

/-- C1 (counterexample): the code writes no fingerprint line.  For two
configurations differing in the `verbose` field but sharing the cache-file
path, a cache written under the first still validates under the second
(`has_cache` only tests existence), and the first line of the written cache
file is the first repository path, which does not parse as an integer. -/
theorem C1_counterexample :
    cfgA.verbose ≠ cfgB.verbose
    ∧ cfgA.cache_file = cfgB.cache_file
    ∧ (cfgA.cache_repos fs0 ["/home/u/a"]).fileLines "/cache/repos.txt"
        = some ["/home/u/a"]
    ∧ "/home/u/a".data.all Char.isDigit = false
    ∧ cfgB.has_cache (cfgA.cache_repos fs0 ["/home/u/a"]) = true := by
  refine ⟨by decide, rfl, by decide, by decide, by decide⟩

/-- C1 (amended): `cache_repos` writes exactly the repository paths, one
line each and no fingerprint line; `has_cache` returns true iff a cache
file is configured and exists, independent of every other configuration
field; hence a cache written under one configuration is still considered
valid under any configuration with the same cache-file path. -/
theorem C1_cache_validity (cfg cfg' : Config) (fs : FS)
    (repos : List String) (file : String)
    (hc : cfg.cache_file = some file) :
    (cfg.cache_repos fs repos).fileLines file = some repos
    ∧ (cfg'.has_cache fs = true ↔
        ∃ f, cfg'.cache_file = some f ∧ fs.fileExists f = true)
    ∧ (cfg'.cache_file = some file →
        cfg'.has_cache (cfg.cache_repos fs repos) = true) := by
  refine ⟨fileLines_cache_repos cfg fs repos file hc, ?_, ?_⟩
  · cases h : cfg'.cache_file <;> simp [Config.has_cache, h]
  · intro h'
    simp [Config.has_cache, h', FS.fileExists,
      fileLines_cache_repos cfg fs repos file hc]

/-- Witness for `C1_cache_validity` at a concrete configuration. -/
theorem C1_cache_validity_witness :
    (cfgA.cache_repos fs0 ["/home/u/a"]).fileLines "/cache/repos.txt"
      = some ["/home/u/a"] :=
  (C1_cache_validity cfgA cfgA fs0 ["/home/u/a"] "/cache/repos.txt" rfl).1

/-- C4: writing a repository list to the cache and reading it back while
the ignored list is empty and every listed path still exists returns the
same list, same order. -/
theorem C4_cache_roundtrip (cfg : Config) (fs : FS) (repos : List String)
    (file : String) (hc : cfg.cache_file = some file)
    (hex : ∀ p ∈ repos, (cfg.cache_repos fs repos).pathExists p = true)
    (hig : cfg.get_ignored_repos (cfg.cache_repos fs repos) = []) :
    cfg.get_cached_repos (cfg.cache_repos fs repos) = repos := by
  simp only [Config.get_cached_repos, hig, hc,
    fileLines_cache_repos cfg fs repos file hc]
  rw [List.filter_eq_self]
  intro p hp
  simp [keepCachedLine, isIgnoredEntry, hex p hp]

/-- Witness for `C4_cache_roundtrip` at a concrete configuration. -/
theorem C4_cache_roundtrip_witness :
    cfgA.get_cached_repos (cfgA.cache_repos fsEx ["/home/u/a"])
      = ["/home/u/a"] :=
  C4_cache_roundtrip cfgA fsEx ["/home/u/a"] "/cache/repos.txt" rfl
    (by decide) (by decide)

/-- C10: when the cache file exists, `get_repos` answers from the cache and
leaves the filesystem state (in particular the cache file) unchanged — no
scan branch is taken; only when the cache file is absent does it scan and
write the cache file. -/
theorem C10_get_repos_frame (cfg : Config) (fs : FS) :
    (cfg.has_cache fs = true →
      cfg.get_repos fs = (cfg.get_cached_repos fs, fs))
    ∧ (cfg.has_cache fs = false →
      cfg.get_repos fs =
        (cfg.get_cached_repos (cfg.cache_repos fs (cfg.find_repos fs)),
          cfg.cache_repos fs (cfg.find_repos fs))) := by
  constructor <;> intro h <;> simp [Config.get_repos, h]

/-- Witness for `C10_get_repos_frame` on a filesystem with an existing
cache file. -/
theorem C10_get_repos_frame_witness :
    cfgA.get_repos fsC = (cfgA.get_cached_repos fsC, fsC) :=
  (C10_get_repos_frame cfgA fsC).1 (by decide)

theorem mem_get_cached_repos (cfg : Config) (fs : FS) (r : String)
    (h : r ∈ cfg.get_cached_repos fs) :
    fs.pathExists r = true
    ∧ isIgnoredEntry r (fs.canonOf r) (cfg.get_ignored_repos fs) = false := by
  simp only [Config.get_cached_repos] at h
  split at h
  · simp at h
  · split at h
    · simp at h
    · have hk := List.of_mem_filter h
      simpa [keepCachedLine] using hk

/-- C6: `get_repos` always returns the cached read of the resulting
filesystem state, in both branches; consequently every returned repository
path exists on disk and matches no entry of the loaded ignore list. -/
theorem C6_both_branches_filtered (cfg : Config) (fs : FS) :
    (cfg.get_repos fs).1 = cfg.get_cached_repos (cfg.get_repos fs).2
    ∧ ∀ r ∈ (cfg.get_repos fs).1,
        (cfg.get_repos fs).2.pathExists r = true
        ∧ isIgnoredEntry r ((cfg.get_repos fs).2.canonOf r)
            (cfg.get_ignored_repos (cfg.get_repos fs).2) = false := by
  refine ⟨rfl, ?_⟩
  intro r hr
  exact mem_get_cached_repos cfg _ r hr

/-- Witness for `C6_both_branches_filtered` on a concrete state whose
result list is nonempty. -/
theorem C6_both_branches_filtered_witness :
    fsC.pathExists "/home/u/a" = true
    ∧ isIgnoredEntry "/home/u/a" (fsC.canonOf "/home/u/a")
        (cfgA.get_ignored_repos fsC) = false :=
  (C6_both_branches_filtered cfgA fsC).2 "/home/u/a" (by decide)

/-- C7: every repository found by the scan is the parent directory of a
yielded directory entry named `.git` that the VCS capability validates —
never the `.git` directory itself — and the scan result is sorted
lexicographically by path. -/
theorem C7_find_repos_shape (cfg : Config) (fs : FS) :
    List.Sorted (· ≤ ·) (cfg.find_repos fs)
    ∧ ∀ r ∈ cfg.find_repos fs,
        ∃ e ∈ walkNode (cfg.filterEntry fs (cfg.get_ignored_repos fs))
            cfg.basedir fs.tree,
          e.isDir = true ∧ e.name = ".git"
          ∧ fs.vcsOk.contains (parentOfStr e.path) = true
          ∧ r = parentOfStr e.path := by
  constructor
  · exact List.sorted_insertionSort _ _
  · intro r hr
    simp only [Config.find_repos, List.mem_insertionSort] at hr
    rcases List.mem_filterMap.mp hr with ⟨e, he, hcond⟩
    refine ⟨e, he, ?_⟩
    split at hcond
    case isFalse => exact absurd hcond (by simp)
    case isTrue hb =>
      simp only [Bool.and_eq_true, beq_iff_eq] at hb
      obtain ⟨⟨hd, hn⟩, hv⟩ := hb
      exact ⟨hd, hn, hv, (Option.some_injective _ hcond).symm⟩

/-- Witness for `C7_find_repos_shape` on a tree containing one validated
repository. -/
theorem C7_find_repos_shape_witness :
    ∃ e ∈ walkNode (cfgA.filterEntry fsT (cfgA.get_ignored_repos fsT))
        cfgA.basedir fsT.tree,
      e.isDir = true ∧ e.name = ".git"
      ∧ fsT.vcsOk.contains (parentOfStr e.path) = true
      ∧ "/home/u/proj" = parentOfStr e.path :=
  (C7_find_repos_shape cfgA fsT).2 "/home/u/proj" (by decide)

/-- C8: `ignore_repo` canonicalizes the path; on canonicalization failure
or an already-present canonical path it returns an error and leaves the
filesystem (in particular the ignore-list file) unchanged; otherwise it
returns success and appends exactly the canonical path as one new line to
the ignore-list file, creating the file's parent directory when the file
did not exist. -/
theorem C8_ignore_repo (cfg : Config) (fs : FS) (p file : String)
    (hf : cfg.ignored_repos_file = some file) :
    (fs.canonOf p = none → ∃ e, cfg.ignore_repo fs p = (.error e, fs))
    ∧ (∀ c, fs.canonOf p = some c → c ∈ cfg.get_ignored_repos fs →
        ∃ e, cfg.ignore_repo fs p = (.error e, fs))
    ∧ (∀ c, fs.canonOf p = some c → c ∉ cfg.get_ignored_repos fs →
        (cfg.ignore_repo fs p).1 = .ok ()
        ∧ (cfg.ignore_repo fs p).2.fileLines file
            = some ((fs.fileLines file).getD [] ++ [c])
        ∧ cfg.get_ignored_repos (cfg.ignore_repo fs p).2
            = cfg.get_ignored_repos fs ++ [c]
        ∧ (fs.fileExists file = false →
            parentOfStr file ∈ (cfg.ignore_repo fs p).2.dirs)) := by
  refine ⟨?_, ?_, ?_⟩
  · intro h
    simp only [Config.ignore_repo, h]
    exact ⟨_, rfl⟩
  · intro c hc hmem
    simp only [Config.ignore_repo, hc]
    rw [if_pos hmem]
    exact ⟨_, rfl⟩
  · intro c hc hmem
    have hig := get_ignored_repos_eq_getD cfg fs file hf
    simp only [Config.ignore_repo, hc, hf, if_neg hmem]
    by_cases hex : fs.fileExists file
    · simp only [hex, Bool.not_true, Bool.false_eq_true, if_false]
      refine ⟨by trivial, ?_, ?_, ?_⟩
      · simp [fileLines_setFile_self]
      · rw [get_ignored_repos_eq_getD cfg _ file hf,
          fileLines_setFile_self, hig]
        simp
      · intro hex'
        simp at hex'
    · simp only [hex, Bool.not_false, if_true]
      refine ⟨by trivial, ?_, ?_, ?_⟩
      · simp [fileLines_setFile_self, fileLines_mkParentDir]
      · rw [get_ignored_repos_eq_getD cfg _ file hf,
          fileLines_setFile_self, hig]
        simp [fileLines_mkParentDir]
      · intro _
        simp [FS.setFile, FS.mkParentDir]

/-- Witness for `C8_ignore_repo`: ignoring `/home/u/b` on a filesystem
where it canonicalizes to itself and is not yet ignored. -/
theorem C8_ignore_repo_witness :
    (cfgA.ignore_repo fsI "/home/u/b").1 = .ok ()
    ∧ (cfgA.ignore_repo fsI "/home/u/b").2.fileLines "/cache/ignored.txt"
        = some ((fsI.fileLines "/cache/ignored.txt").getD []
            ++ ["/home/u/b"])
    ∧ cfgA.get_ignored_repos (cfgA.ignore_repo fsI "/home/u/b").2
        = cfgA.get_ignored_repos fsI ++ ["/home/u/b"]
    ∧ (fsI.fileExists "/cache/ignored.txt" = false →
        parentOfStr "/cache/ignored.txt"
          ∈ (cfgA.ignore_repo fsI "/home/u/b").2.dirs) :=
  (C8_ignore_repo cfgA fsI "/home/u/b" "/cache/ignored.txt" rfl).2.2
    "/home/u/b" (by decide) (by decide)

/-! ## The bounded-concurrency executor (`src/parallel.rs`)

`run_parallel` is embedded as a small-step transition system.  A state
records the permits currently in the semaphore channel
(`sync_channel::<()>(max_threads)`, pre-filled with `max_threads` permits),
the repositories the dispatch loop has not yet dispatched (dispatch takes
them in list order and must first receive a permit), the repositories whose
worker thread is currently executing `f`, the number of workers that have
already sent their `(path, result)` pair on the result channel but not yet
returned their permit, and the pairs sent so far.  The main thread then
drains exactly `n_repos` results, i.e. returns at any state whose `results`
has the input length. -/

/-- A scheduler state of `run_parallel` (src/parallel.rs:29-75). -/
structure RPState (T : Type) where
  permits : Nat
  pending : List String
  running : List String
  retiring : Nat
  results : List (String × T)

/-- The state at the start of `run_parallel`: `maxThreads` permits
pre-filled (src/parallel.rs:46-48), nothing dispatched, no results. -/
def RPState.init (T : Type) (maxThreads : Nat) (repos : List String) :
    RPState T :=
  ⟨maxThreads, repos, [], 0, []⟩

/-- One interleaving step of `run_parallel` for operation `f`:
`dispatch` consumes a permit and spawns a worker for the next repo in list
order (src/parallel.rs:51-59); `finish` lets any running worker complete
`f` and send its `(path, result)` pair (src/parallel.rs:60-62);
`release` lets such a worker return its permit (src/parallel.rs:64). -/
inductive RPStep {T : Type} (f : String → T) : RPState T → RPState T → Prop
  | dispatch (s : RPState T) (p : Nat) (r : String) (rest : List String)
      (hp : s.permits = p + 1) (hq : s.pending = r :: rest) :
      RPStep f s ⟨p, rest, r :: s.running, s.retiring, s.results⟩
  | finish (s : RPState T) (l1 l2 : List String) (r : String)
      (hr : s.running = l1 ++ r :: l2) :
      RPStep f s ⟨s.permits, s.pending, l1 ++ l2, s.retiring + 1,
        s.results ++ [(r, f r)]⟩
  | release (s : RPState T) (n : Nat) (hn : s.retiring = n + 1) :
      RPStep f s ⟨s.permits + 1, s.pending, s.running, n, s.results⟩

/-- States reachable during a run of `run_parallel`. -/
def RPReach {T : Type} (f : String → T) : RPState T → RPState T → Prop :=
  Relation.ReflTransGen (RPStep f)

/-- Run invariant: permits are conserved (`permits` in the channel plus one
per running worker plus one per worker that has not yet returned it), the
dispatched-or-not bookkeeping of repository paths is conserved as a
multiset, and every delivered pair is `(r, f r)`. -/
theorem rp_invariant {T : Type} (f : String → T) (k : Nat)
    (repos : List String) (s : RPState T)
    (h : RPReach f (RPState.init T k repos) s) :
    (s.permits + s.running.length + s.retiring = k
      ∧ (↑s.pending + ↑s.running + ↑(s.results.map Prod.fst)
          : Multiset String) = ↑repos)
    ∧ ∀ pr ∈ s.results, pr.2 = f pr.1 := by
  induction h with
  | refl => simp [RPState.init]
  | tail hab hbc ih =>
      obtain ⟨⟨ih1, ih2⟩, ih3⟩ := ih
      cases hbc with
      | dispatch p r rest hp hq =>
          rw [hp] at ih1
          rw [hq] at ih2
          refine ⟨⟨by simp; omega, ?_⟩, ih3⟩
          rw [← ih2]
          simp only [← Multiset.cons_coe, Multiset.cons_add,
            Multiset.add_cons]
      | finish l1 l2 r hr =>
          rw [hr] at ih1 ih2
          refine ⟨⟨by simp at ih1 ⊢; omega, ?_⟩, ?_⟩
          · rw [← ih2]
            simp only [List.map_append, List.map_cons, List.map_nil,
              ← Multiset.coe_add, ← Multiset.cons_coe, Multiset.cons_add,
              Multiset.add_cons, ← Multiset.singleton_add,
              Multiset.coe_singleton]
            abel
          · intro pr hpr
            rcases List.mem_append.mp hpr with h1 | h2
            · exact ih3 pr h1
            · rcases List.mem_singleton.mp h2 with rfl
              rfl
      | release n hn =>
          rw [hn] at ih1
          exact ⟨⟨by simp; omega, ih2⟩, ih3⟩

/-- C2: with `maxWorkers = k ≥ 1`, at every point of a run of
`run_parallel` at most `k` worker operations are concurrently active: the
counting-semaphore discipline bounds the running workers by the pool
capacity. -/
theorem C2_bounded_concurrency {T : Type} (f : String → T) (k : Nat)
    (repos : List String) (s : RPState T) (hk : 1 ≤ k)
    (h : RPReach f (RPState.init T k repos) s) :
    s.running.length ≤ k := by
  have := (rp_invariant f k repos s h).1.1
  omega

/-- Witness for `C2_bounded_concurrency` at a concrete run state. -/
theorem C2_bounded_concurrency_witness :
    (RPState.init Nat 1 ["/a", "/b"]).running.length ≤ 1 :=
  C2_bounded_concurrency (fun _ => 0) 1 ["/a", "/b"]
    (RPState.init Nat 1 ["/a", "/b"]) (by decide) Relation.ReflTransGen.refl

/-- C3: whenever the aggregation loop has drained exactly `n = len repos`
results, the multiset of returned paths equals the multiset of input
repository paths — nothing dropped, nothing extra, in any completion
order — and every returned pair carries the operation's result for its
path. -/
theorem C3_complete_aggregation {T : Type} (f : String → T) (k : Nat)
    (repos : List String) (s : RPState T)
    (h : RPReach f (RPState.init T k repos) s)
    (hlen : s.results.length = repos.length) :
    (s.results.map Prod.fst).Perm repos
    ∧ ∀ pr ∈ s.results, pr.2 = f pr.1 := by
  obtain ⟨⟨_, h2⟩, h3⟩ := rp_invariant f k repos s h
  have hcard := congrArg Multiset.card h2
  simp only [Multiset.card_add, Multiset.coe_card, List.length_map] at hcard
  have hpend : s.pending = [] := by
    have : s.pending.length = 0 := by omega
    exact List.eq_nil_of_length_eq_zero this
  have hrun : s.running = [] := by
    have : s.running.length = 0 := by omega
    exact List.eq_nil_of_length_eq_zero this
  rw [hpend, hrun] at h2
  simp only [Multiset.coe_nil, zero_add] at h2
  exact ⟨Multiset.coe_eq_coe.mp h2, h3⟩

/-- Witness for `C3_complete_aggregation`: a complete two-step run over one
repository. -/
theorem C3_complete_aggregation_witness :
    ((([("/a", (0 : Nat))]).map Prod.fst).Perm ["/a"])
    ∧ ∀ pr ∈ [("/a", (0 : Nat))], pr.2 = (fun _ => (0 : Nat)) pr.1 :=
  C3_complete_aggregation (fun _ => (0 : Nat)) 1 ["/a"]
    ⟨0, [], [], 1, [("/a", 0)]⟩
    (Relation.ReflTransGen.tail
      (Relation.ReflTransGen.tail Relation.ReflTransGen.refl
        (RPStep.dispatch (RPState.init Nat 1 ["/a"]) 0 "/a" [] rfl rfl))
      (RPStep.finish ⟨0, [], ["/a"], 0, []⟩ [] [] "/a" rfl))
    rfl

/-- C9: over the empty repository list no step is possible from the initial
state for any `maxWorkers` and any operation: `run_parallel` stays at the
initial state and its result list is empty (src/parallel.rs:34-37 returns
`vec![]` immediately). -/
theorem C9_empty_run {T : Type} (f : String → T) (k : Nat) (s : RPState T)
    (h : RPReach f (RPState.init T k []) s) :
    s = RPState.init T k [] ∧ s.results = [] := by
  induction h with
  | refl => exact ⟨rfl, rfl⟩
  | tail hab hbc ih =>
      obtain ⟨rfl, -⟩ := ih
      cases hbc with
      | dispatch p r rest hp hq => cases hq
      | finish l1 l2 r hr =>
          exact absurd hr.symm (List.append_ne_nil_of_right_ne_nil _
            (List.cons_ne_nil r l2))
      | release n hn => exact absurd hn (by simp [RPState.init])

/-- Witness for `C9_empty_run` at the initial state. -/
theorem C9_empty_run_witness :
    RPState.init Nat 4 [] = RPState.init Nat 4 []
    ∧ (RPState.init Nat 4 []).results = [] :=
  C9_empty_run (fun _ => 0) 4 (RPState.init Nat 4 [])
    Relation.ReflTransGen.refl

end GitGlobal
